import Mathlib

/-!
Verification of the Live Audio Session Manager and auxiliary panels of the
Vidya AI study-assistant web application.

The relevant program fragments (the `LiveTutor` component's PCM encoder
`createBlob`, the base64 helpers `decode`/`btoa`/`atob`, the decoder
`decodeAudioData`, the `onmessage` playback scheduler, `stopSession`,
`startSession`, the study planner's `removeExam`, the quiz panel's
`calculateScore`/`finishQuiz`, and the service layer's
`cleanJSON`/`generateQuiz`) are shallowly embedded below.

Modelling conventions:
- JavaScript numbers are modelled as `ℚ` (audio samples, clock times) or
  `ℤ`/`ℕ` (integer byte and sample values); the `Int16Array` element
  conversion (ECMAScript `ToInt16`: truncation toward zero, then wrap-around
  modulo 2^16 into [-32768, 32767]) is modelled exactly.
- Binary strings and base64 strings are modelled as lists of character
  codes (`List ℕ`); typed-array byte buffers as `List ℕ` with entries < 256.
  The platform is little-endian, as `Int16Array`/`Uint8Array` aliasing in
  the browser exposes.
- React `useState`/`useRef` cells become fields of explicit state
  structures; event handlers become state-transition functions.  Calls with
  observable effects on the audio platform (`close`, `stop`) are recorded in
  an `Action` trace where their relative order matters.
-/

/-! ## Base64 (the browser's `btoa`/`atob`, used by `createBlob`/`decode`) -/

/-- Character code of the base64 digit with value `n` (0 ≤ n < 64):
`A`-`Z`, `a`-`z`, `0`-`9`, `+`, `/`. -/
def b64Char (n : ℕ) : ℕ :=
  if n < 26 then 65 + n
  else if n < 52 then 97 + (n - 26)
  else if n < 62 then 48 + (n - 52)
  else if n = 62 then 43 else 47

/-- Value of a base64 digit character code (inverse of `b64Char`). -/
def b64Val (c : ℕ) : ℕ :=
  if 65 ≤ c ∧ c ≤ 90 then c - 65
  else if 97 ≤ c ∧ c ≤ 122 then 26 + (c - 97)
  else if 48 ≤ c ∧ c ≤ 57 then 52 + (c - 48)
  else if c = 43 then 62 else 63

/-- The browser's `btoa`: base64-encode a byte sequence (given as the
character codes of a binary string, each < 256) into the character codes of
a base64 string, `=` (code 61) padding included. -/
def btoa : List ℕ → List ℕ
  | [] => []
  | [b1] => [b64Char (b1 / 4), b64Char (b1 % 4 * 16), 61, 61]
  | [b1, b2] =>
      [b64Char (b1 / 4), b64Char (b1 % 4 * 16 + b2 / 16), b64Char (b2 % 16 * 4), 61]
  | b1 :: b2 :: b3 :: rest =>
      b64Char (b1 / 4) :: b64Char (b1 % 4 * 16 + b2 / 16) ::
      b64Char (b2 % 16 * 4 + b3 / 64) :: b64Char (b3 % 64) :: btoa rest

/-- The browser's `atob` on well-formed base64 input: decode four base64
characters to three bytes, honouring `=` (code 61) padding. -/
def atob : List ℕ → List ℕ
  | c1 :: c2 :: c3 :: c4 :: rest =>
      if c3 = 61 then [b64Val c1 * 4 + b64Val c2 / 16]
      else if c4 = 61 then
        [b64Val c1 * 4 + b64Val c2 / 16, b64Val c2 % 16 * 16 + b64Val c3 / 4]
      else
        (b64Val c1 * 4 + b64Val c2 / 16) ::
        (b64Val c2 % 16 * 16 + b64Val c3 / 4) ::
        (b64Val c3 % 4 * 64 + b64Val c4) :: atob rest
  | _ => []

theorem b64Val_b64Char (n : ℕ) (h : n < 64) : b64Val (b64Char n) = n := by
  have : ∀ m, m < 64 → b64Val (b64Char m) = m := by decide
  exact this n h

theorem b64Char_ne_61 (n : ℕ) : b64Char n ≠ 61 := by
  unfold b64Char; split_ifs <;> omega

theorem atob_btoa : ∀ l : List ℕ, (∀ b ∈ l, b < 256) → atob (btoa l) = l
  | [], _ => rfl
  | [b1], h => by
      have hb1 : b1 < 256 := h b1 (by simp)
      show atob [b64Char (b1 / 4), b64Char (b1 % 4 * 16), 61, 61] = [b1]
      simp only [atob, if_true]
      rw [b64Val_b64Char (b1 / 4) (by omega), b64Val_b64Char (b1 % 4 * 16) (by omega)]
      simp only [List.cons.injEq, and_true]
      omega
  | [b1, b2], h => by
      have hb1 : b1 < 256 := h b1 (by simp)
      have hb2 : b2 < 256 := h b2 (by simp)
      show atob [b64Char (b1 / 4), b64Char (b1 % 4 * 16 + b2 / 16),
        b64Char (b2 % 16 * 4), 61] = [b1, b2]
      simp only [atob, if_true]
      rw [b64Val_b64Char (b1 / 4) (by omega),
        b64Val_b64Char (b1 % 4 * 16 + b2 / 16) (by omega),
        b64Val_b64Char (b2 % 16 * 4) (by omega)]
      rw [if_neg (b64Char_ne_61 _)]
      simp only [List.cons.injEq, and_true]
      omega
  | b1 :: b2 :: b3 :: bs, h => by
      have hb1 : b1 < 256 := h b1 (by simp)
      have hb2 : b2 < 256 := h b2 (by simp)
      have hb3 : b3 < 256 := h b3 (by simp)
      have ih := atob_btoa bs (fun b hb => h b (by simp [hb]))
      show atob (b64Char (b1 / 4) :: b64Char (b1 % 4 * 16 + b2 / 16) ::
        b64Char (b2 % 16 * 4 + b3 / 64) :: b64Char (b3 % 64) :: btoa bs)
        = b1 :: b2 :: b3 :: bs
      simp only [atob]
      rw [if_neg (b64Char_ne_61 _), if_neg (b64Char_ne_61 _)]
      rw [b64Val_b64Char (b1 / 4) (by omega),
        b64Val_b64Char (b1 % 4 * 16 + b2 / 16) (by omega),
        b64Val_b64Char (b2 % 16 * 4 + b3 / 64) (by omega),
        b64Val_b64Char (b3 % 64) (by omega)]
      rw [ih]
      simp only [List.cons.injEq, and_true]
      omega

/-! ## PCM encoder (`createBlob`) and decoder (`decode`, `decodeAudioData`) -/

/-- ECMAScript truncation (`ToIntegerOrInfinity`): round toward zero. -/
def jsTrunc (q : ℚ) : ℤ :=
  if 0 ≤ q then ⌊q⌋ else ⌈q⌉

/-- ECMAScript `ToInt16`, the conversion applied when a number is stored
into an `Int16Array` element (`int16[i] = data[i] * 32768` in `createBlob`):
truncate toward zero, reduce modulo 2^16, re-centre into [-32768, 32767]. -/
def toInt16 (q : ℚ) : ℤ :=
  if 32768 ≤ jsTrunc q % 65536 then jsTrunc q % 65536 - 65536
  else jsTrunc q % 65536

/-- The two bytes of an `Int16Array` element as exposed by viewing the
array's buffer through a `Uint8Array` (little-endian platform). -/
def int16ToBytes (v : ℤ) : List ℕ :=
  [(v % 65536).toNat % 256, (v % 65536).toNat / 256]

/-- Read an even-length byte buffer as an `Int16Array` (little-endian,
signed), as `decodeAudioData` does via `new Int16Array(data.buffer)`. -/
def bytesToInt16s : List ℕ → List ℤ
  | b0 :: b1 :: rest =>
      (if 32768 ≤ b0 + 256 * b1 then (b0 + 256 * b1 : ℤ) - 65536
       else (b0 + 256 * b1 : ℤ)) :: bytesToInt16s rest
  | _ => []

/-- The `{ mimeType, data }` object returned by `createBlob`; `data` holds
the character codes of the base64 string. -/
structure PcmBlob where
  mimeType : String
  data : List ℕ
  deriving Repr

/-- Model of `createBlob` from `LiveTutor`: scale each captured sample by 32768 into
an `Int16Array`, view its buffer as bytes, build a binary string and
base64-encode it, tagging the result with the fixed MIME descriptor. -/
def createBlob (data : List ℚ) : PcmBlob :=
  let int16 : List ℤ := data.map (fun s => toInt16 (s * 32768))
  let uint8 : List ℕ := (int16.map int16ToBytes).flatten
  { mimeType := "audio/pcm;rate=16000", data := btoa uint8 }

/-- Model of `decode` from `LiveTutor`: base64 string to byte buffer. -/
def decode (base64 : List ℕ) : List ℕ :=
  atob base64

/-- The playable buffer produced by `decodeAudioData`: `length` counts
frames, `duration` (below) is `length / sampleRate` as in Web Audio. -/
structure AudioBuffer where
  numberOfChannels : ℕ
  frames : ℕ
  sampleRate : ℚ
  channels : List (List ℚ)
  deriving Repr

/-- Web Audio `AudioBuffer.duration`: frame count over sample rate. -/
def AudioBuffer.duration (b : AudioBuffer) : ℚ :=
  (b.frames : ℚ) / b.sampleRate

/-- Model of `decodeAudioData` from `LiveTutor`: reinterpret the bytes as 16-bit
signed integers, de-interleave `channels`-many channels and normalise each
sample to floating point by dividing by 32768. -/
def decodeAudioData (data : List ℕ) (rate : ℚ) (channels : ℕ) : AudioBuffer :=
  let dataInt16 := bytesToInt16s data
  let frameCount := dataInt16.length / channels
  { numberOfChannels := channels
    frames := frameCount
    sampleRate := rate
    channels :=
      (List.range channels).map (fun c =>
        (List.range frameCount).map (fun i =>
          (((dataInt16.get? (i * channels + c)).getD 0 : ℚ)) / 32768)) }

theorem int16ToBytes_lt (v : ℤ) : ∀ b ∈ int16ToBytes v, b < 256 := by
  intro b hb
  have h0 : 0 ≤ v % 65536 := Int.emod_nonneg v (by norm_num)
  have h1 : v % 65536 < 65536 := Int.emod_lt_of_pos v (by norm_num)
  simp only [int16ToBytes, List.mem_cons, List.mem_singleton] at hb
  rcases hb with h | h | h
  · omega
  · omega
  · cases h

theorem bytesToInt16s_int16ToBytes :
    ∀ vs : List ℤ, (∀ v ∈ vs, -32768 ≤ v ∧ v < 32768) →
      bytesToInt16s ((vs.map int16ToBytes).flatten) = vs
  | [], _ => rfl
  | v :: vs, h => by
      have hv := h v (by simp)
      have ih := bytesToInt16s_int16ToBytes vs (fun w hw => h w (by simp [hw]))
      show bytesToInt16s ((v % 65536).toNat % 256 :: (v % 65536).toNat / 256 ::
        (vs.map int16ToBytes).flatten) = v :: vs
      rw [bytesToInt16s, ih]
      congr 1
      omega

theorem jsTrunc_bounds (v : ℚ) (hlo : -32768 ≤ v) (hhi : v < 32768) :
    -32768 ≤ jsTrunc v ∧ jsTrunc v < 32768 := by
  unfold jsTrunc
  split_ifs with h0
  · constructor
    · have : (0:ℤ) ≤ ⌊v⌋ := (Int.floor_nonneg).mpr h0
      omega
    · exact Int.floor_lt.mpr (by exact_mod_cast hhi)
  · push_neg at h0
    constructor
    · have h1 : ((-32768 : ℤ) : ℚ) ≤ (⌈v⌉ : ℚ) := by
        calc ((-32768 : ℤ) : ℚ) ≤ v := by exact_mod_cast hlo
          _ ≤ (⌈v⌉ : ℚ) := Int.le_ceil v
      exact_mod_cast h1
    · have : ⌈v⌉ ≤ 0 := Int.ceil_le.mpr (le_of_lt h0)
      omega

theorem jsTrunc_dist (v : ℚ) : |(jsTrunc v : ℚ) - v| < 1 := by
  unfold jsTrunc
  split_ifs with h0
  · have h1 := Int.floor_le v
    have h2 := Int.lt_floor_add_one v
    rw [abs_lt]
    constructor <;> linarith
  · have h1 := Int.le_ceil v
    have h2 := Int.ceil_lt_add_one v
    rw [abs_lt]
    constructor <;> linarith

theorem toInt16_eq_jsTrunc (v : ℚ) (hlo : -32768 ≤ v) (hhi : v < 32768) :
    toInt16 v = jsTrunc v := by
  obtain ⟨h1, h2⟩ := jsTrunc_bounds v hlo hhi
  unfold toInt16
  omega

/-- Quantization of one sample: for a sample in [-1, 1), the stored 16-bit
value is within range and decoding it back stays within 1/32768. -/
theorem sample_quantization (s : ℚ) (hlo : -1 ≤ s) (hhi : s < 1) :
    -32768 ≤ toInt16 (s * 32768) ∧ toInt16 (s * 32768) < 32768 ∧
      |((toInt16 (s * 32768) : ℚ)) / 32768 - s| ≤ 1 / 32768 := by
  have hvlo : -32768 ≤ s * 32768 := by linarith
  have hvhi : s * 32768 < 32768 := by linarith
  rw [toInt16_eq_jsTrunc (s * 32768) hvlo hvhi]
  obtain ⟨h1, h2⟩ := jsTrunc_bounds (s * 32768) hvlo hvhi
  refine ⟨h1, h2, ?_⟩
  have hdist := jsTrunc_dist (s * 32768)
  have heq : ((jsTrunc (s * 32768) : ℚ)) / 32768 - s
      = ((jsTrunc (s * 32768) : ℚ) - s * 32768) / 32768 := by ring
  rw [heq, abs_div]
  rw [show |(32768:ℚ)| = 32768 by norm_num]
  rw [div_le_div_iff₀ (by norm_num) (by norm_num)]
  nlinarith [abs_nonneg ((jsTrunc (s * 32768) : ℚ) - s * 32768)]

theorem range_map_get? (f : ℤ → ℚ) :
    ∀ l : List ℤ, (List.range l.length).map (fun i => f ((l.get? i).getD 0)) = l.map f
  | [] => rfl
  | a :: l => by
      have ih := range_map_get? f l
      simp only [List.length_cons, List.range_succ_eq_map, List.map_cons, List.map_map]
      congr 1

/-- Evaluation of `decodeAudioData` in the mono case: one channel holding the 16-bit
values divided by 32768, one frame per 16-bit value. -/
theorem decodeAudioData_mono (data : List ℕ) (rate : ℚ) :
    (decodeAudioData data rate 1).channels
        = [(bytesToInt16s data).map (fun v : ℤ => (v : ℚ) / 32768)] ∧
      (decodeAudioData data rate 1).frames = (bytesToInt16s data).length := by
  unfold decodeAudioData
  refine ⟨?_, by simp⟩
  simp only [Nat.div_one, List.range_zero, List.range_succ, List.nil_append,
    List.map_cons, List.map_nil, mul_one, add_zero]
  rw [range_map_get? (fun v : ℤ => (v : ℚ) / 32768) (bytesToInt16s data)]

theorem jsTrunc_intCast (n : ℤ) : jsTrunc ((n : ℚ)) = n := by
  unfold jsTrunc
  split_ifs <;> simp [Int.floor_intCast, Int.ceil_intCast]

/-- The byte buffer recovered by `decode` from a `createBlob` output is
exactly the little-endian serialization of the scaled samples. -/
theorem decode_createBlob (x : List ℚ) :
    decode (createBlob x).data
      = ((x.map (fun s => toInt16 (s * 32768))).map int16ToBytes).flatten := by
  show atob (btoa (((x.map (fun s => toInt16 (s * 32768))).map int16ToBytes).flatten)) = _
  refine atob_btoa _ (fun b hb => ?_)
  rcases List.mem_flatten.mp hb with ⟨l, hl, hbl⟩
  rcases List.mem_map.mp hl with ⟨v, _, rfl⟩
  exact int16ToBytes_lt v b hbl

/-- C1 as the spec states it, with the closed sample interval [-1, 1]. -/
def ClaimC1 : Prop :=
  ∀ x : List ℚ, (∀ s ∈ x, -1 ≤ s ∧ s ≤ 1) →
    ((decodeAudioData (decode (createBlob x).data) 24000 1).channels.headI).length
        = x.length ∧
    List.Forall₂ (fun s y => |y - s| ≤ 1 / 32768) x
      ((decodeAudioData (decode (createBlob x).data) 24000 1).channels.headI)

theorem toInt16_one_scaled : toInt16 ((1 : ℚ) * 32768) = -32768 := by
  unfold toInt16
  rw [show (1 : ℚ) * 32768 = ((32768 : ℤ) : ℚ) by norm_num, jsTrunc_intCast]
  decide

/-- C1, counterexample: a sample equal to 1.0 scales to 32768, which the
`Int16Array` store wraps around to -32768, so the decoded sample is -1.0,
off by 2 — far beyond the claimed 1/32768 bound. -/
theorem pcm_roundtrip_fails_at_one : ¬ ClaimC1 := by
  intro h
  have hbytes : ((([(1 : ℚ)].map (fun s => toInt16 (s * 32768))).map int16ToBytes).flatten)
      = [0, 128] := by
    simp only [List.map_cons, List.map_nil, toInt16_one_scaled]
    decide
  have hchan : (decodeAudioData (decode (createBlob [(1 : ℚ)]).data) 24000 1).channels.headI
      = [(-1 : ℚ)] := by
    rw [decode_createBlob [(1 : ℚ)], hbytes, (decodeAudioData_mono [0, 128] 24000).1]
    rw [show bytesToInt16s [0, 128] = [(-32768 : ℤ)] by decide]
    norm_num
  have h1 := h [(1 : ℚ)] (by intro s hs; simp only [List.mem_singleton] at hs; simp [hs])
  rw [hchan] at h1
  have h2 := (List.forall₂_cons.mp h1.2).1
  rw [show (-1 : ℚ) - 1 = -2 by norm_num, abs_neg] at h2
  rw [show |(2 : ℚ)| = 2 by norm_num] at h2
  norm_num at h2

/-- C1 (amended: the sample 1.0 itself must be excluded — `x[i] * 32768`
wraps for `x[i] = 1.0`): for every buffer of samples in [-1.0, 1.0), the
decoded mono buffer obtained from the base64-decoded `createBlob` output
has the same length and reproduces each sample within 1/32768. -/
theorem pcm_roundtrip_quantization (x : List ℚ) (hx : ∀ s ∈ x, -1 ≤ s ∧ s < 1) :
    ((decodeAudioData (decode (createBlob x).data) 24000 1).channels.headI).length
        = x.length ∧
    List.Forall₂ (fun s y => |y - s| ≤ 1 / 32768) x
      ((decodeAudioData (decode (createBlob x).data) 24000 1).channels.headI) := by
  have hchain : (decodeAudioData (decode (createBlob x).data) 24000 1).channels.headI
      = x.map (fun s => ((toInt16 (s * 32768) : ℚ)) / 32768) := by
    rw [decode_createBlob x, (decodeAudioData_mono _ 24000).1,
      bytesToInt16s_int16ToBytes (x.map (fun s => toInt16 (s * 32768)))
        (fun v hv => by
          rcases List.mem_map.mp hv with ⟨s, hs, rfl⟩
          obtain ⟨h1, h2, _⟩ := sample_quantization s (hx s hs).1 (hx s hs).2
          exact ⟨h1, h2⟩)]
    simp only [List.headI, List.map_map]
    rfl
  rw [hchain]
  constructor
  · simp
  · rw [List.forall₂_map_right_iff]
    exact List.forall₂_same.mpr
      (fun s hs => (sample_quantization s (hx s hs).1 (hx s hs).2).2.2)

/-- Witness for `pcm_roundtrip_quantization` at the buffer [1/2, -1]. -/
theorem pcm_roundtrip_quantization_witness :
    ((decodeAudioData (decode (createBlob [(1 : ℚ)/2, -1]).data) 24000 1).channels.headI).length
        = 2 ∧
    List.Forall₂ (fun s y => |y - s| ≤ 1 / 32768) [(1 : ℚ)/2, -1]
      ((decodeAudioData (decode (createBlob [(1 : ℚ)/2, -1]).data) 24000 1).channels.headI) :=
  pcm_roundtrip_quantization [(1 : ℚ)/2, -1]
    (by
      intro s hs
      simp only [List.mem_cons, List.mem_singleton, List.not_mem_nil, or_false] at hs
      rcases hs with rfl | rfl <;> norm_num)

/-- The outbound message object sent by `sendRealtimeInput`. -/
structure RealtimeInputMsg where
  media : PcmBlob

/-- One `sendRealtimeInput` call per `onaudioprocess` capture callback:
the outbound message stream for a list of captured frames. -/
def capturedMessages (frames : List (List ℚ)) : List RealtimeInputMsg :=
  frames.map (fun f => { media := createBlob f })

/-- C6: `createBlob` is a pure function returning the fixed MIME descriptor
and the base64 encoding of the samples scaled by 32768 and stored as
16-bit signed little-endian integers; out-of-range samples wrap (sample 2.0
is stored as 0) instead of being clamped; one message is sent per frame. -/
theorem createBlob_contract (data : List ℚ) (frames : List (List ℚ)) :
    (createBlob data).mimeType = "audio/pcm;rate=16000" ∧
    (createBlob data).data
        = btoa (((data.map (fun s => toInt16 (s * 32768))).map int16ToBytes).flatten) ∧
    decode ((createBlob data).data)
        = ((data.map (fun s => toInt16 (s * 32768))).map int16ToBytes).flatten ∧
    toInt16 ((2 : ℚ) * 32768) = 0 ∧
    (capturedMessages frames).length = frames.length := by
  refine ⟨rfl, rfl, decode_createBlob data, ?_, by simp [capturedMessages]⟩
  unfold toInt16
  rw [show (2 : ℚ) * 32768 = ((65536 : ℤ) : ℚ) by norm_num, jsTrunc_intCast]
  decide

/-! ## Playback scheduling and interruption (`onmessage` in `LiveTutor`) -/

/-- An `AudioBufferSourceNode` as tracked in `sourcesRef`: its scheduled
start time (the argument of `source.start`) and its buffer's duration. -/
structure Source where
  startTime : ℚ
  duration : ℚ

/-- The part of a `LiveServerMessage` the handler reads:
`serverContent.modelTurn.parts[0].inlineData.data` (base64 character codes)
and `serverContent.interrupted`. -/
structure LiveMsg where
  audioData : Option (List ℕ)
  interrupted : Bool

/-- The playback-side mutable cells of `LiveTutor`: `nextStartTimeRef`,
`sourcesRef` (insertion-ordered) and the `isSpeaking` flag. -/
structure PlaybackState where
  nextStartTime : ℚ
  sources : List Source
  isSpeaking : Bool

/-- Duration of the buffer decoded from one base64 audio chunk
(24 kHz mono, as the handler requests). -/
def chunkDuration (b64 : List ℕ) : ℚ :=
  (decodeAudioData (decode b64) 24000 1).duration

/-- The `onmessage` handler at clock time `now` (`ctx.currentTime` when the
cursor is clamped): an audio chunk is decoded and scheduled at
`max(nextStartTime, now)`, the cursor advances by the buffer's duration and
the source is tracked; an interruption signal then stops and clears every
tracked source, resets the cursor to zero and clears the speaking flag.
(The handler's `if (!outputContextRef.current) return` guard is outside
this model: the context is present while the session runs.) -/
def onmessage (st : PlaybackState) (now : ℚ) (msg : LiveMsg) : PlaybackState :=
  let st1 :=
    match msg.audioData with
    | some b64 =>
        let t0 := max st.nextStartTime now
        let dur := chunkDuration b64
        { nextStartTime := t0 + dur
          sources := st.sources ++ [{ startTime := t0, duration := dur }]
          isSpeaking := true }
    | none => st
  if msg.interrupted then
    { nextStartTime := 0, sources := [], isSpeaking := false }
  else st1

theorem onmessage_audio (st : PlaybackState) (now : ℚ) (b64 : List ℕ) :
    onmessage st now { audioData := some b64, interrupted := false }
      = { nextStartTime := max st.nextStartTime now + chunkDuration b64
          sources := st.sources ++
            [{ startTime := max st.nextStartTime now, duration := chunkDuration b64 }]
          isSpeaking := true } := rfl

/-- The start times assigned to a sequence of audio chunks handled in
arrival order, each tagged with the clock time at which it is handled. -/
def scheduleChunks (st : PlaybackState) : List (ℚ × List ℕ) → List ℚ
  | [] => []
  | (now, b64) :: rest =>
      max st.nextStartTime now ::
        scheduleChunks (onmessage st now { audioData := some b64, interrupted := false }) rest

theorem scheduleChunks_consec :
    ∀ (chunks : List (ℚ × List ℕ)) (st : PlaybackState) (k : ℕ),
      k + 1 < chunks.length →
      (chunks.getD (k + 1) (0, [])).1
          < (scheduleChunks st chunks).getD k 0
            + chunkDuration (chunks.getD k (0, [])).2 →
      (scheduleChunks st chunks).getD (k + 1) 0
        = (scheduleChunks st chunks).getD k 0
          + chunkDuration (chunks.getD k (0, [])).2
  | [], _, k, hk => by simp at hk
  | [(t1, b1)], _, k, hk => by simp at hk
  | (t1, b1) :: (t2, b2) :: rest, st, 0, hk => by
      intro harr
      simp only [scheduleChunks, onmessage_audio, List.getD_cons_succ,
        List.getD_cons_zero] at harr ⊢
      exact max_eq_left (le_of_lt harr)
  | (t1, b1) :: (t2, b2) :: rest, st, k + 1, hk => by
      intro harr
      have ih := scheduleChunks_consec ((t2, b2) :: rest)
        (onmessage st t1 { audioData := some b1, interrupted := false }) k
        (by simpa using hk)
      simp only [scheduleChunks, List.getD_cons_succ] at harr ⊢
      exact ih harr

theorem chunkDuration_example : chunkDuration (btoa [0, 0]) = 1 / 24000 := by
  unfold chunkDuration AudioBuffer.duration decodeAudioData
  rw [show decode (btoa [0, 0]) = [0, 0] from by decide]
  norm_num [show bytesToInt16s [0, 0] = [0] from by decide]

/-- C2: each decoded chunk starts at `max(currentTime, nextStartTime)` and
the cursor advances by the chunk's duration; hence whenever chunk k+1 is
handled before chunk k's playback finishes, chunk k+1 starts exactly where
chunk k ends — no gap, no overlap. -/
theorem gapless_scheduling (st : PlaybackState) (now : ℚ) (b64 : List ℕ)
    (chunks : List (ℚ × List ℕ)) (k : ℕ)
    (hk : k + 1 < chunks.length)
    (harrive : (chunks.getD (k + 1) (0, [])).1
        < (scheduleChunks st chunks).getD k 0
          + chunkDuration (chunks.getD k (0, [])).2) :
    ((onmessage st now { audioData := some b64, interrupted := false }).nextStartTime
        = max st.nextStartTime now + chunkDuration b64) ∧
    (scheduleChunks st chunks).getD (k + 1) 0
      = (scheduleChunks st chunks).getD k 0
        + chunkDuration (chunks.getD k (0, [])).2 :=
  ⟨by rw [onmessage_audio], scheduleChunks_consec chunks st k hk harrive⟩

/-- Witness for `gapless_scheduling`: two 1-frame chunks handled at clock
time 0 from the initial playback state. -/
theorem gapless_scheduling_witness :
    ((onmessage ⟨0, [], false⟩ 0
        { audioData := some (btoa [0, 0]), interrupted := false }).nextStartTime
        = max (0 : ℚ) 0 + chunkDuration (btoa [0, 0])) ∧
    (scheduleChunks ⟨0, [], false⟩ [(0, btoa [0, 0]), (0, btoa [0, 0])]).getD 1 0
      = (scheduleChunks ⟨0, [], false⟩ [(0, btoa [0, 0]), (0, btoa [0, 0])]).getD 0 0
        + chunkDuration ([((0 : ℚ), btoa [0, 0]), (0, btoa [0, 0])].getD 0 (0, [])).2 := by
  apply gapless_scheduling ⟨0, [], false⟩ 0 (btoa [0, 0])
    [(0, btoa [0, 0]), (0, btoa [0, 0])] 0 (by norm_num)
  simp only [scheduleChunks, List.getD_cons_zero, List.getD_cons_succ]
  rw [chunkDuration_example]
  norm_num

/-- C3: a message carrying the interruption signal empties the tracked
source set, resets the start cursor to zero and clears the speaking flag;
an audio chunk handled afterwards at clock time `now2 ≥ 0` is scheduled at
`now2` itself, not at the pre-interruption cursor value. -/
theorem interruption_clears (st : PlaybackState) (now : ℚ) (msg : LiveMsg)
    (hint : msg.interrupted = true) :
    (onmessage st now msg).sources = [] ∧
    (onmessage st now msg).nextStartTime = 0 ∧
    (onmessage st now msg).isSpeaking = false ∧
    ∀ (now2 : ℚ) (b64 : List ℕ), 0 ≤ now2 →
      ((onmessage (onmessage st now msg) now2
          { audioData := some b64, interrupted := false }).sources).map Source.startTime
        = [now2] := by
  have hreset : onmessage st now msg = ⟨0, [], false⟩ := by
    simp [onmessage, hint]
  refine ⟨by rw [hreset], by rw [hreset], by rw [hreset], ?_⟩
  intro now2 b64 h0
  rw [hreset, onmessage_audio]
  simp [max_eq_right h0]

/-- Witness for `interruption_clears`: an interruption handled while one
source is scheduled and the cursor sits at 5, followed by a chunk at
clock time 7. -/
theorem interruption_clears_witness :
    (onmessage ⟨5, [⟨1, 2⟩], true⟩ 3 { audioData := none, interrupted := true }).sources
        = [] ∧
    (onmessage ⟨5, [⟨1, 2⟩], true⟩ 3 { audioData := none, interrupted := true }).nextStartTime
        = 0 ∧
    (onmessage ⟨5, [⟨1, 2⟩], true⟩ 3 { audioData := none, interrupted := true }).isSpeaking
        = false ∧
    ((onmessage (onmessage ⟨5, [⟨1, 2⟩], true⟩ 3 { audioData := none, interrupted := true }) 7
        { audioData := some (btoa [0, 0]), interrupted := false }).sources).map Source.startTime
      = [7] := by
  obtain ⟨h1, h2, h3, h4⟩ := interruption_clears ⟨5, [⟨1, 2⟩], true⟩ 3
    { audioData := none, interrupted := true } rfl
  exact ⟨h1, h2, h3, h4 7 (btoa [0, 0]) (by norm_num)⟩

/-! ## Session lifecycle (`stopSession`, `startSession`, `onerror`) -/

/-- Calls `stopSession` and `startSession` issue against the audio
platform, in program order. -/
inductive PlatformCall where
  | closeSession
  | closeInputCtx
  | closeOutputCtx
  | stopSource (s : Source)
  | clearSources

/-- The `LiveTutor` component state: the `sessionRef` / `inputContextRef` /
`outputContextRef` cells (modelled as held-or-null booleans), the playback
cells, the `isConnected` / `isSpeaking` / `error` states, and the
`MediaStream` returned by `getUserMedia` (held only in a local variable of
`startSession`; `micStream` records whether it has been acquired, since no
code path ever stops its tracks). -/
structure SessionState where
  session : Bool
  inputCtx : Bool
  outputCtx : Bool
  nextStartTime : ℚ
  sources : List Source
  isConnected : Bool
  isSpeaking : Bool
  error : String
  micStream : Bool

/-- Model of `stopSession` from `LiveTutor`: close the session and both audio
contexts if present (nulling the refs), then stop every tracked source and
clear the set, then clear both flags.  The returned trace lists the
platform calls in the order the code makes them. -/
def stopSession (st : SessionState) : SessionState × List PlatformCall :=
  ({ st with
      session := false
      inputCtx := false
      outputCtx := false
      sources := []
      isConnected := false
      isSpeaking := false },
   (if st.session then [PlatformCall.closeSession] else []) ++
   (if st.inputCtx then [PlatformCall.closeInputCtx] else []) ++
   (if st.outputCtx then [PlatformCall.closeOutputCtx] else []) ++
   st.sources.map PlatformCall.stopSource ++ [PlatformCall.clearSources])

/-- The Disconnected state: no session, no audio contexts, no tracked
sources, both flags down. -/
def Disconnected (st : SessionState) : Prop :=
  st.session = false ∧ st.inputCtx = false ∧ st.outputCtx = false ∧
  st.sources = [] ∧ st.isConnected = false ∧ st.isSpeaking = false

/-- C4: `stopSession` on an already-disconnected state is a pure no-op
(same state, no close or stop call issued — only the harmless clear of an
already-empty set); a second `stopSession` right after a first one changes
nothing and issues no close or stop call; after any `stopSession` the state
is Disconnected. -/
theorem stopSession_idempotent (st : SessionState) :
    (Disconnected st → stopSession st = (st, [PlatformCall.clearSources])) ∧
    stopSession (stopSession st).1 = ((stopSession st).1, [PlatformCall.clearSources]) ∧
    Disconnected (stopSession st).1 := by
  refine ⟨?_, ?_, ?_⟩
  · intro hd
    obtain ⟨h1, h2, h3, h4, h5, h6⟩ := hd
    cases st
    simp_all [stopSession]
  · cases st
    simp [stopSession]
  · exact ⟨rfl, rfl, rfl, rfl, rfl, rfl⟩

/-- Witness for `stopSession_idempotent` at a concrete disconnected
state. -/
theorem stopSession_idempotent_witness :
    stopSession ⟨false, false, false, 0, [], false, false, "", false⟩
        = (⟨false, false, false, 0, [], false, false, "", false⟩, [PlatformCall.clearSources]) ∧
    stopSession (stopSession ⟨false, false, false, 0, [], false, false, "", false⟩).1
        = ((stopSession ⟨false, false, false, 0, [], false, false, "", false⟩).1,
            [PlatformCall.clearSources]) ∧
    Disconnected (stopSession ⟨false, false, false, 0, [], false, false, "", false⟩).1 := by
  have h := stopSession_idempotent ⟨false, false, false, 0, [], false, false, "", false⟩
  exact ⟨h.1 ⟨rfl, rfl, rfl, rfl, rfl, rfl⟩, h.2.1, h.2.2⟩

/-- Playback-queue draining actions: stopping a tracked source, clearing
the tracking set. -/
def isDrainCall : PlatformCall → Bool
  | .stopSource _ => true
  | .clearSources => true
  | _ => false

/-- Resource-release actions: closing the duplex session or an audio
context. -/
def isReleaseCall : PlatformCall → Bool
  | .closeSession => true
  | .closeInputCtx => true
  | .closeOutputCtx => true
  | _ => false

/-- C5 as the spec states it: on stop from a connected state, every
queue-draining call comes before every release call. -/
def ClaimC5 : Prop :=
  ∀ st : SessionState, st.isConnected = true →
    ∀ i j : ℕ, i < (stopSession st).2.length → j < (stopSession st).2.length →
      isDrainCall ((stopSession st).2.getD i PlatformCall.clearSources) = true →
      isReleaseCall ((stopSession st).2.getD j PlatformCall.clearSources) = true →
      i < j

theorem mem_ite_singleton {c : Prop} [Decidable c] {a x : PlatformCall}
    (h : a ∈ if c then [x] else []) : a = x := by
  split_ifs at h
  · simpa using h
  · cases h

theorem rel_before_drain_append (A B : List PlatformCall) (d : PlatformCall)
    (hA : ∀ a ∈ A, isDrainCall a = false)
    (hB : ∀ b ∈ B, isReleaseCall b = false) :
    ∀ i j : ℕ, i < (A ++ B).length → j < (A ++ B).length →
      isReleaseCall ((A ++ B).getD i d) = true →
      isDrainCall ((A ++ B).getD j d) = true → i < j := by
  intro i j hi hj hrel hdr
  by_cases hjA : j < A.length
  · exfalso
    rw [List.getD_append A B d j hjA, List.getD_eq_getElem A d hjA] at hdr
    rw [hA _ (List.getElem_mem hjA)] at hdr
    cases hdr
  · by_cases hiA : i < A.length
    · omega
    · exfalso
      push_neg at hiA
      rw [List.getD_append_right A B d i hiA] at hrel
      have hlt : i - A.length < B.length := by
        rw [List.length_append] at hi; omega
      rw [List.getD_eq_getElem B d hlt] at hrel
      rw [hB _ (List.getElem_mem hlt)] at hrel
      cases hrel

/-- C5, counterexample: `stopSession` from a connected state with one
tracked source closes the session and both contexts (trace positions 0-2)
before stopping the source (position 3) and clearing the set (position 4),
so a drain call does not precede a release call. -/
theorem teardown_closes_before_drain : ¬ ClaimC5 := by
  intro h
  have htr : (stopSession ⟨true, true, true, 0, [⟨0, 1⟩], true, false, "", true⟩).2
      = [PlatformCall.closeSession, PlatformCall.closeInputCtx,
         PlatformCall.closeOutputCtx, PlatformCall.stopSource ⟨0, 1⟩,
         PlatformCall.clearSources] := rfl
  have h30 := h ⟨true, true, true, 0, [⟨0, 1⟩], true, false, "", true⟩ rfl 3 0
    (by rw [htr]; norm_num) (by rw [htr]; norm_num)
    (by rw [htr]; rfl) (by rw [htr]; rfl)
  omega

/-- C5 (amended: the code performs the two phases in the opposite order):
every call to `stopSession` from a connected state synchronously, within
the same call, first closes the session and the audio contexts and only
then drains the playback queue — every release call precedes every drain
call in the trace, every tracked source receives a stop call, the set is
cleared, and the resulting state tracks no sources. -/
theorem stopSession_release_then_drain (st : SessionState)
    (hc : st.isConnected = true) :
    (∀ i j : ℕ, i < (stopSession st).2.length → j < (stopSession st).2.length →
      isReleaseCall ((stopSession st).2.getD i PlatformCall.clearSources) = true →
      isDrainCall ((stopSession st).2.getD j PlatformCall.clearSources) = true →
      i < j) ∧
    (∀ s ∈ st.sources, PlatformCall.stopSource s ∈ (stopSession st).2) ∧
    PlatformCall.clearSources ∈ (stopSession st).2 ∧
    (stopSession st).1.sources = [] := by
  have htr : (stopSession st).2
      = ((if st.session then [PlatformCall.closeSession] else []) ++
         (if st.inputCtx then [PlatformCall.closeInputCtx] else []) ++
         (if st.outputCtx then [PlatformCall.closeOutputCtx] else [])) ++
        (st.sources.map PlatformCall.stopSource ++ [PlatformCall.clearSources]) := by
    simp [stopSession, List.append_assoc]
  refine ⟨?_, ?_, ?_, rfl⟩
  · rw [htr]
    refine rel_before_drain_append _ _ _ ?_ ?_
    · intro a ha
      rcases List.mem_append.mp ha with ha | ha
      · rcases List.mem_append.mp ha with ha | ha
        · rw [mem_ite_singleton ha]; rfl
        · rw [mem_ite_singleton ha]; rfl
      · rw [mem_ite_singleton ha]; rfl
    · intro b hb
      rcases List.mem_append.mp hb with hb | hb
      · rcases List.mem_map.mp hb with ⟨s, _, rfl⟩; rfl
      · rw [List.mem_singleton.mp hb]; rfl
  · intro s hs
    rw [htr]
    exact List.mem_append.mpr (Or.inr (List.mem_append.mpr
      (Or.inl (List.mem_map.mpr ⟨s, hs, rfl⟩))))
  · rw [htr]
    simp

/-- Witness for `stopSession_release_then_drain` at a connected state with
one tracked source. -/
theorem stopSession_release_then_drain_witness :
    PlatformCall.stopSource ⟨0, 1⟩
        ∈ (stopSession ⟨true, true, true, 0, [⟨0, 1⟩], true, false, "", true⟩).2 ∧
    PlatformCall.clearSources
        ∈ (stopSession ⟨true, true, true, 0, [⟨0, 1⟩], true, false, "", true⟩).2 ∧
    (stopSession ⟨true, true, true, 0, [⟨0, 1⟩], true, false, "", true⟩).1.sources = [] := by
  have h := stopSession_release_then_drain
    ⟨true, true, true, 0, [⟨0, 1⟩], true, false, "", true⟩ rfl
  exact ⟨h.2.1 ⟨0, 1⟩ (List.mem_singleton.mpr rfl), h.2.2.1, h.2.2.2⟩

/-- How the awaited steps of `startSession` turn out: `getUserMedia`
rejects (`micDenied`), `connectLiveSession` rejects (`connectFailed`), or
the session opens (`opened`).  There is no other control flow: the catch
block is the only failure handler and contains no retry. -/
inductive StartOutcome where
  | micDenied
  | connectFailed
  | opened

/-- Model of `startSession` from `LiveTutor`: clear the error, create both audio
contexts (refs set before any await), then acquire the microphone and open
the live connection.  On either failure the catch block sets the
user-visible error and runs `stopSession`; nothing in the handler stops
the `MediaStream`'s tracks, so `micStream` survives teardown. -/
def startSession (st : SessionState) (o : StartOutcome) : SessionState :=
  let st1 := { st with error := "", inputCtx := true, outputCtx := true }
  match o with
  | .micDenied =>
      (stopSession { st1 with error := "Failed to access microphone or connect." }).1
  | .connectFailed =>
      (stopSession { st1 with
        micStream := true
        error := "Failed to access microphone or connect." }).1
  | .opened =>
      { st1 with micStream := true, session := true, isConnected := true }

/-- Model of `onerror` from the live-session callbacks: record the generic error
message and tear the session down. -/
def onerror (st : SessionState) : SessionState :=
  (stopSession { st with error := "Connection error." }).1

/-- C7 as the spec states it: on either failure during start, an error is
surfaced, the state is fully torn down, and the microphone stream is
released. -/
def ClaimC7 : Prop :=
  ∀ (st : SessionState) (o : StartOutcome), o ≠ StartOutcome.opened →
    (startSession st o).error ≠ "" ∧
    Disconnected (startSession st o) ∧
    (startSession st o).micStream = false

/-- C7, counterexample: when the connection fails after the microphone was
acquired, teardown closes the input audio context but never calls
`stop()` on the `MediaStream` tracks — the stream stays acquired. -/
theorem start_failure_keeps_mic_stream : ¬ ClaimC7 := by
  intro h
  have h7 := h ⟨false, false, false, 0, [], false, false, "", false⟩
    StartOutcome.connectFailed (by intro hc; cases hc)
  have hmic : (startSession ⟨false, false, false, 0, [], false, false, "", false⟩
      StartOutcome.connectFailed).micStream = true := rfl
  rw [h7.2.2] at hmic
  cases hmic

/-- C7 (amended: the microphone stream is never stopped — teardown closes
the audio contexts and the session only): a failure of microphone
acquisition or of connection establishment during start sets the
user-visible error message, runs the full teardown, leaves the session
Disconnected with no retry or reconnect (no session handle remains), and
leaves the `MediaStream` running — untouched on `micDenied`, still
acquired on `connectFailed`; the `onerror` callback likewise sets a
generic error and tears down. -/
theorem start_failure_teardown (st : SessionState) :
    ((startSession st StartOutcome.micDenied).error
        = "Failed to access microphone or connect." ∧
      Disconnected (startSession st StartOutcome.micDenied) ∧
      (startSession st StartOutcome.micDenied).micStream = st.micStream) ∧
    ((startSession st StartOutcome.connectFailed).error
        = "Failed to access microphone or connect." ∧
      Disconnected (startSession st StartOutcome.connectFailed) ∧
      (startSession st StartOutcome.connectFailed).micStream = true) ∧
    ((onerror st).error = "Connection error." ∧ Disconnected (onerror st)) :=
  ⟨⟨rfl, ⟨rfl, rfl, rfl, rfl, rfl, rfl⟩, rfl⟩,
   ⟨rfl, ⟨rfl, rfl, rfl, rfl, rfl, rfl⟩, rfl⟩,
   ⟨rfl, ⟨rfl, rfl, rfl, rfl, rfl, rfl⟩⟩⟩

/-! ## Study planner: `removeExam` -/

/-- One entry of the planner's exam list. -/
structure Exam where
  name : String
  date : String

/-- Model of `removeExam` from the study planner: drop the exam at position `idx`
via an index-based filter when more than one exam is listed; when only one
remains, reset the list to a single blank entry. -/
def removeExam (exams : List Exam) (idx : ℕ) : List Exam :=
  if 1 < exams.length then
    (exams.enum.filter (fun p => p.1 != idx)).map Prod.snd
  else [{ name := "", date := "" }]

theorem enumFrom_filter_lt (idx : ℕ) :
    ∀ (l : List Exam) (n : ℕ), idx < n →
      ((l.enumFrom n).filter (fun p => p.1 != idx)).map Prod.snd = l
  | [], _, _ => rfl
  | a :: l, n, h => by
      have ih := enumFrom_filter_lt idx l (n + 1) (by omega)
      simp only [List.enumFrom, List.filter_cons]
      rw [if_pos (by simpa using by omega : ((n != idx) = true))]
      simp only [List.map_cons]
      rw [ih]

theorem enumFrom_filter_ge (idx : ℕ) :
    ∀ (l : List Exam) (n : ℕ), n + l.length ≤ idx →
      ((l.enumFrom n).filter (fun p => p.1 != idx)).map Prod.snd = l
  | [], _, _ => rfl
  | a :: l, n, h => by
      have ih := enumFrom_filter_ge idx l (n + 1) (by simp at h; omega)
      simp only [List.enumFrom, List.filter_cons]
      rw [if_pos (by simpa using by simp at h; omega : ((n != idx) = true))]
      simp only [List.map_cons]
      rw [ih]

theorem enumFrom_filter_erase :
    ∀ (l : List Exam) (n k : ℕ), k < l.length →
      ((l.enumFrom n).filter (fun p => p.1 != (n + k))).map Prod.snd = l.eraseIdx k
  | [], n, k, h => by simp at h
  | a :: l, n, 0, _ => by
      simp only [List.enumFrom, List.filter_cons, Nat.add_zero]
      rw [if_neg (by simp)]
      rw [enumFrom_filter_lt n l (n + 1) (by omega)]
      rfl
  | a :: l, n, k + 1, h => by
      have ih := enumFrom_filter_erase l (n + 1) k (by simp at h; omega)
      simp only [List.enumFrom, List.filter_cons]
      rw [if_pos (by simpa using by omega : ((n != n + (k + 1)) = true))]
      simp only [List.map_cons]
      rw [show n + (k + 1) = (n + 1) + k by omega, ih]
      rfl

/-- C8: the exam list never becomes empty — with more than one exam,
`removeExam` at a valid index removes exactly that exam; with a single
exam left it resets the list to one blank entry; in every case at least
one entry remains. -/
theorem removeExam_invariant (exams : List Exam) (idx : ℕ) :
    1 ≤ (removeExam exams idx).length ∧
    (1 < exams.length → idx < exams.length →
      removeExam exams idx = exams.eraseIdx idx) ∧
    (exams.length = 1 → removeExam exams idx = [{ name := "", date := "" }]) := by
  have herase : 1 < exams.length → idx < exams.length →
      removeExam exams idx = exams.eraseIdx idx := by
    intro h1 h2
    unfold removeExam
    rw [if_pos h1]
    have := enumFrom_filter_erase exams 0 idx h2
    simpa using this
  refine ⟨?_, herase, ?_⟩
  · by_cases h1 : 1 < exams.length
    · by_cases h2 : idx < exams.length
      · rw [herase h1 h2]
        rw [List.length_eraseIdx]
        simp [h2]
        omega
      · unfold removeExam
        rw [if_pos h1]
        have := enumFrom_filter_ge idx exams 0 (by omega)
        rw [show ((exams.enum.filter (fun p => p.1 != idx)).map Prod.snd)
            = exams from by simpa using this]
        omega
    · unfold removeExam
      rw [if_neg h1]
      simp
  · intro h1
    unfold removeExam
    rw [if_neg (by omega)]

/-- Witness for `removeExam_invariant`: removing index 0 from a two-exam
list keeps exactly the other exam; removing from a one-exam list resets to
a blank entry. -/
theorem removeExam_invariant_witness :
    removeExam [⟨"Math", "2026-01-01"⟩, ⟨"Physics", "2026-02-01"⟩] 0
        = [⟨"Physics", "2026-02-01"⟩] ∧
    removeExam [⟨"Math", "2026-01-01"⟩] 3 = [{ name := "", date := "" }] := by
  have h1 := removeExam_invariant [⟨"Math", "2026-01-01"⟩, ⟨"Physics", "2026-02-01"⟩] 0
  have h2 := removeExam_invariant [⟨"Math", "2026-01-01"⟩] 3
  exact ⟨h1.2.1 (by norm_num) (by norm_num), h2.2.2 rfl⟩

/-! ## Quiz panel: `calculateScore`, `finishQuiz` -/

/-- One generated quiz question (the JSON schema's required fields). -/
structure QuizQuestion where
  question : String
  options : List String
  correctAnswer : String
  explanation : String

/-- One entry of the quiz history. -/
structure QuizResult where
  date : String
  topic : String
  score : ℕ
  total : ℕ
  difficulty : String

/-- Model of `calculateScore` from the quiz panel: walk the quiz with its indices
and count the questions whose stored answer equals the correct answer
(`answers` maps question index to the selected option, `none` when the
question was left unanswered). -/
def calculateScore (quiz : List QuizQuestion) (answers : ℕ → Option String) : ℕ :=
  quiz.enum.foldl
    (fun score p => if answers p.1 = some p.2.correctAnswer then score + 1 else score) 0

/-- Model of `finishQuiz` from the quiz panel: build the result record and prepend
it to the history, keeping the last 10 entries. -/
def finishQuiz (date topic difficulty : String) (quiz : List QuizQuestion)
    (answers : ℕ → Option String) (history : List QuizResult) : List QuizResult :=
  ({ date := date, topic := topic, score := calculateScore quiz answers,
     total := quiz.length, difficulty := difficulty } :: history).take 10

/-- The data of one finished quiz: everything `finishQuiz` reads. -/
structure QuizEvent where
  date : String
  topic : String
  difficulty : String
  quiz : List QuizQuestion
  answers : ℕ → Option String

/-- The result record `finishQuiz` builds for one finished quiz. -/
def quizResultOf (e : QuizEvent) : QuizResult :=
  { date := e.date, topic := e.topic, score := calculateScore e.quiz e.answers,
    total := e.quiz.length, difficulty := e.difficulty }

/-- A sequence of finished quizzes applied to an initial history. -/
def runQuizzes (h0 : List QuizResult) : List QuizEvent → List QuizResult
  | [] => h0
  | e :: es => runQuizzes (finishQuiz e.date e.topic e.difficulty e.quiz e.answers h0) es

theorem foldl_count {α : Type} (p : α → Prop) [DecidablePred p] :
    ∀ (l : List α) (acc : ℕ),
      l.foldl (fun n a => if p a then n + 1 else n) acc
        = acc + l.countP (fun a => decide (p a))
  | [], acc => by simp
  | a :: l, acc => by
      rw [List.foldl_cons, foldl_count p l, List.countP_cons]
      by_cases hp : p a
      · simp [hp]; omega
      · simp [hp]

theorem take_append_take (n : ℕ) (A l : List QuizResult) :
    (A ++ l.take n).take n = (A ++ l).take n := by
  rw [List.take_append_eq_append_take, List.take_append_eq_append_take, List.take_take]
  rw [min_eq_left (by omega)]

theorem runQuizzes_take :
    ∀ (es : List QuizEvent) (e : QuizEvent) (h0 : List QuizResult),
      runQuizzes h0 (e :: es)
        = (((e :: es).map quizResultOf).reverse ++ h0).take 10
  | [], e, h0 => by
      simp only [runQuizzes, List.map_cons, List.map_nil, List.reverse_cons,
        List.reverse_nil, List.nil_append]
      rfl
  | e2 :: es2, e, h0 => by
      have ih := runQuizzes_take es2 e2
        (finishQuiz e.date e.topic e.difficulty e.quiz e.answers h0)
      show runQuizzes (finishQuiz e.date e.topic e.difficulty e.quiz e.answers h0)
          (e2 :: es2) = _
      rw [ih]
      rw [show finishQuiz e.date e.topic e.difficulty e.quiz e.answers h0
          = (quizResultOf e :: h0).take 10 from rfl]
      rw [take_append_take]
      rw [show ((e2 :: es2).map quizResultOf).reverse ++ (quizResultOf e :: h0)
          = (((e2 :: es2).map quizResultOf).reverse ++ [quizResultOf e]) ++ h0 from by
        simp [List.append_assoc]]
      rw [show ((e2 :: es2).map quizResultOf).reverse ++ [quizResultOf e]
          = (((e :: e2 :: es2).map quizResultOf)).reverse from by
        simp [List.reverse_cons]]

/-- C9: `finishQuiz` computes the score as the number of questions whose
stored answer equals the correct answer, prepends the new result and
truncates the history to 10 entries; hence after any sequence of finished
quizzes the history is exactly the newest-first list of their results in
front of the old history, cut to at most 10 entries. -/
theorem finishQuiz_history (date topic difficulty : String)
    (quiz : List QuizQuestion) (answers : ℕ → Option String)
    (history h0 : List QuizResult) (e : QuizEvent) (es : List QuizEvent) :
    calculateScore quiz answers
        = quiz.enum.countP (fun p => decide (answers p.1 = some p.2.correctAnswer)) ∧
    finishQuiz date topic difficulty quiz answers history
        = { date := date, topic := topic, score := calculateScore quiz answers,
            total := quiz.length, difficulty := difficulty } :: history.take 9 ∧
    runQuizzes h0 (e :: es)
        = (((e :: es).map quizResultOf).reverse ++ h0).take 10 ∧
    (runQuizzes h0 (e :: es)).length ≤ 10 := by
  refine ⟨?_, ?_, runQuizzes_take es e h0, ?_⟩
  · have := foldl_count (fun p : ℕ × QuizQuestion => answers p.1 = some p.2.correctAnswer)
      quiz.enum 0
    simpa [calculateScore] using this
  · unfold finishQuiz
    rw [List.take_succ_cons]
  · rw [runQuizzes_take es e h0]
    exact List.length_take_le 10 _

/-! ## Service layer: `cleanJSON`, `generateQuiz` -/

/-- JavaScript `String.prototype.trim`: drop whitespace at both ends
(strings are modelled as `List Char`). -/
def trimChars (s : List Char) : List Char :=
  ((s.dropWhile Char.isWhitespace).reverse.dropWhile Char.isWhitespace).reverse

/-- One anchored head replacement `replace(/^<fence>\s*/, "")`: when the
string starts with the fence, drop it together with the whitespace run
following it. -/
def stripLeadFence (fence : List Char) (s : List Char) : List Char :=
  if fence.isPrefixOf s then (s.drop fence.length).dropWhile Char.isWhitespace
  else s

/-- The anchored tail replacement `replace(/\s*<fence>$/, "")` with the
three-backtick fence: when the string ends with the fence, drop it
together with the whitespace run preceding it. -/
def stripTrailFence (s : List Char) : List Char :=
  if "```".data.isSuffixOf s then
    ((s.take (s.length - 3)).reverse.dropWhile Char.isWhitespace).reverse
  else s

/-- Model of `cleanJSON` from the service layer: an empty string becomes `"[]"`;
otherwise the leading fence (with or without the `json` tag), the trailing
fence and surrounding whitespace are stripped. -/
def cleanJSON (text : List Char) : List Char :=
  if text = [] then "[]".data
  else trimChars (stripTrailFence
    (stripLeadFence "```".data (stripLeadFence "```json".data text)))

/-- Model of `generateQuiz` from the service layer, given the model's response text
(`none` when the response carries no text) and `JSON.parse` modelled as a
fallible parser (the unchecked `as QuizQuestion[]` cast is absorbed into
the parser's result type): empty or absent text yields `[]`, and a parse
failure on the cleaned text is caught and yields `[]`. -/
def generateQuiz (parseJSON : List Char → Option (List QuizQuestion))
    (responseText : Option (List Char)) : List QuizQuestion :=
  match responseText with
  | none => []
  | some text =>
      if text = [] then []
      else
        match parseJSON (cleanJSON text) with
        | some qs => qs
        | none => []

/-- C10: `generateQuiz` never fails on malformed model output — absent
text, empty text, and text whose fence-stripped form does not parse as
JSON all produce the empty question list (for any behaviour of the
parser). -/
theorem generateQuiz_malformed (parseJSON : List Char → Option (List QuizQuestion))
    (t : List Char) (hparse : parseJSON (cleanJSON t) = none) :
    generateQuiz parseJSON none = [] ∧
    generateQuiz parseJSON (some []) = [] ∧
    generateQuiz parseJSON (some t) = [] := by
  refine ⟨rfl, rfl, ?_⟩
  show (if t = [] then []
      else match parseJSON (cleanJSON t) with
        | some qs => qs
        | none => []) = []
  split_ifs
  · rfl
  · rw [hparse]

/-- Witness for `generateQuiz_malformed`: a parser rejecting everything
and a fenced, non-JSON response text. -/
theorem generateQuiz_malformed_witness :
    generateQuiz (fun _ => none) none = [] ∧
    generateQuiz (fun _ => none) (some []) = [] ∧
    generateQuiz (fun _ => none) (some ("```json nonsense".data)) = [] :=
  generateQuiz_malformed (fun _ => none) ("```json nonsense".data) rfl
